import Mathlib

/-
Verification of the iq-puzzler placement-and-search engine.

Each Go entity of the final engine variant is shallowly embedded as an
executable Lean definition:
  * Go `int` becomes `Int`; Go `[2]int` positions become `Int × Int`.
  * The fixed `[DimX][DimY]bool` occupancy array becomes a total function
    `Fin DimX → Fin DimY → Bool`, whose shape is fixed by its type exactly as
    the Go array type fixes the shape of `Game.cells`.
  * Fallible methods return explicit result inductives; a Go runtime panic
    (out-of-range array index) is modelled as a distinguished `panicked`
    constructor so that safety claims about panics are expressible.
  * The result channel of the parallel entry point is modelled by its eventual
    contents, linearized in goroutine spawn order; a Go `nil` channel is `none`.
-/

namespace IqPuzzler

/-- Height of the playing board (Go constant `DimX`). -/
def DimX : Nat := 5

/-- Width of the playing board (Go constant `DimY`). -/
def DimY : Nat := 11

/-- Position on the board or relative offset of a piece cell, with x going
down and y going right; embeds the Go type `Pos = [2]int`. -/
abbrev Pos := Int × Int

/-- Componentwise translation of a position, from Go `(Pos).translate`. -/
def Pos.translate (p p2 : Pos) : Pos := (p.1 + p2.1, p.2 + p2.2)

/-- Planar transformation, embedding the Go type `Matrix = [2][2]int`
(outer pair = rows). -/
abbrev Matrix := (Int × Int) × (Int × Int)

/-- Matrix-vector product, from Go `(Matrix).Transform`. -/
def Matrix.Transform (m : Matrix) (p : Pos) : Pos :=
  (m.1.1 * p.1 + m.1.2 * p.2, m.2.1 * p.1 + m.2.2 * p.2)

/-- Matrix-matrix product, from Go `(Matrix).Mult`. -/
def Matrix.Mult (m m2 : Matrix) : Matrix :=
  ((m.1.1 * m2.1.1 + m.1.2 * m2.2.1, m.1.1 * m2.1.2 + m.1.2 * m2.2.2),
   (m.2.1 * m2.1.1 + m.2.2 * m2.2.1, m.2.1 * m2.1.2 + m.2.2 * m2.2.2))

/-- Identity matrix (Go `Identity`). -/
def Identity : Matrix := ((1, 0), (0, 1))

/-- Rotation by 90 degrees (Go `Rot90`). -/
def Rot90 : Matrix := ((0, 1), (-1, 0))

/-- Mirror on the x axis (Go `Mirror`). -/
def Mirror : Matrix := ((1, 0), (0, -1))

/-- Fixed list of all eight transformations, in the exact order of the Go
variable `tx`. -/
def tx : List Matrix :=
  [Identity,
   Mirror,
   Rot90,
   Matrix.Mult Rot90 Mirror,
   Matrix.Mult Rot90 Rot90,
   Matrix.Mult (Matrix.Mult Rot90 Rot90) Rot90,
   Matrix.Mult (Matrix.Mult Rot90 Rot90) Mirror,
   Matrix.Mult (Matrix.Mult (Matrix.Mult Rot90 Rot90) Rot90) Mirror]

/-- Puzzle piece: a name, relative offset cells, and a symmetry flag; embeds
the Go struct `Piece`. -/
structure Piece where
  name : String
  pos : List Pos
  sym : Bool
deriving DecidableEq

/-- Apply a transformation matrix to every offset cell, from Go
`(Piece).transform`. -/
def Piece.transform (p : Piece) (m : Matrix) : Piece :=
  { name := p.name, pos := p.pos.map (fun q => Matrix.Transform m q), sym := p.sym }

/-- Loop body of Go `(Piece).allVersions`: iterate over the index range of
`tx`, returning early once `t >= 4` for a symmetric piece. -/
def allVersionsLoop (p : Piece) : List Nat → List Piece → List Piece
  | [], res => res
  | t :: ts, res =>
    if p.sym ∧ 4 ≤ t then res
    else allVersionsLoop p ts (res ++ [p.transform (tx.getD t Identity)])

/-- Precompute all transformed variants of a piece, from Go
`(Piece).allVersions`. -/
def Piece.allVersions (p : Piece) : List Piece :=
  allVersionsLoop p (List.range tx.length) []

/-- Placed piece together with its anchor translation; embeds the Go struct
`Move`. -/
structure Move where
  piece : Piece
  translate : Pos
deriving DecidableEq

/-- Absolute board cells occupied by a move, from Go `(Move).image`. -/
def Move.image (m : Move) : List Pos :=
  m.piece.pos.map (fun p => Pos.translate p m.translate)

/-- Occupancy grid of the board; embeds the Go array `[DimX][DimY]bool`,
whose shape is fixed by the array type. -/
abbrev Grid := Fin DimX → Fin DimY → Bool

/-- Read of `cells[p[0]][p[1]]`. In the Go engine every read is preceded by a
bounds check against `DimX`/`DimY`, so the fallback branches are never taken
at any call site. -/
def getCell (cs : Grid) (p : Pos) : Bool :=
  if h1 : p.1.toNat < DimX then
    if h2 : p.2.toNat < DimY then cs ⟨p.1.toNat, h1⟩ ⟨p.2.toNat, h2⟩
    else false
  else false

/-- Write of `cells[p[0]][p[1]] = b`. In the Go engine every write is guarded
by a bounds check against `DimX`/`DimY` (in `add` by the explicit check, in
`pop` by the panic modelled in `clearCells`), so the fallback branches are
never taken at any call site. -/
def setCell (cs : Grid) (p : Pos) (b : Bool) : Grid :=
  if h1 : p.1.toNat < DimX then
    if h2 : p.2.toNat < DimY then
      Function.update cs ⟨p.1.toNat, h1⟩
        (Function.update (cs ⟨p.1.toNat, h1⟩) ⟨p.2.toNat, h2⟩ b)
    else cs
  else cs

/-- Sequence of writes of the same value at a list of positions (the final
commit loop of `add` and the clearing loop of `pop`). -/
def writeCells (cs : Grid) (l : List Pos) (b : Bool) : Grid :=
  l.foldl (fun acc p => setCell acc p b) cs

/-- Board session: ordered move history, occupancy grid, and running occupied
cell count; embeds the Go struct `Game`. -/
structure Game where
  moves : List Move
  cells : Grid
  count : Int
deriving DecidableEq

/-- Static piece catalog, from the Go variable `pieces`. -/
def pieces : List Piece :=
  [{ name := "blue", pos := [(0, 0), (0, 1), (0, 2), (1, 0)], sym := false },
   { name := "green", pos := [(0, 0), (1, 0), (2, 0), (1, 1)], sym := true },
   { name := "lightblue", pos := [(0, 0), (1, 0), (2, 0), (2, 1), (2, 2)], sym := true },
   { name := "maroon", pos := [(0, 0), (0, 1), (1, 1), (1, 2)], sym := true },
   { name := "mint", pos := [(0, 0), (0, 1), (0, 2), (1, 0), (1, 1)], sym := false },
   { name := "olive", pos := [(0, 0), (1, 0), (2, 0), (0, 1), (2, 1)], sym := true },
   { name := "orange", pos := [(0, 0), (1, 0), (1, 1), (1, 2), (2, 1)], sym := false },
   { name := "pink", pos := [(0, 0), (0, 1), (0, 2), (1, 2), (1, 3)], sym := false },
   { name := "red", pos := [(0, 0), (0, 1), (0, 2), (0, 3), (1, 0)], sym := false },
   { name := "turquoise", pos := [(0, 0), (0, 1), (1, 0)], sym := false },
   { name := "violet", pos := [(0, 0), (1, 0), (1, 1), (2, 1), (2, 2)], sym := true },
   { name := "yellow", pos := [(0, 0), (0, 1), (0, 2), (0, 3), (1, 1)], sym := false }]

/-- Outcome of the image-building loop of `add`. `panicked` models the Go
runtime panic raised by the write `image[i] = pi` into the fixed `[5]Pos`
buffer when `i >= 5`. -/
inductive ImageResult where
  | panicked : ImageResult
  | rejected : ImageResult
  | built : List Pos → ImageResult
deriving DecidableEq

/-- Image-building loop of Go `(*Game).add`: for each offset, translate by
the anchor, check bounds, check occupancy, then record the cell in the fixed
five-element buffer (index `i`). The checks replicate the source order. -/
def buildImage (cs : Grid) (pos : Pos) : List Pos → Nat → ImageResult
  | [], _ => .built []
  | p :: ps, i =>
    let pi := Pos.translate p pos
    if pi.1 < 0 ∨ pi.1 ≥ (DimX : Int) ∨ pi.2 < 0 ∨ pi.2 ≥ (DimY : Int) then .rejected
    else if getCell cs pi then .rejected
    else if 5 ≤ i then .panicked
    else match buildImage cs pos ps (i + 1) with
      | .built image => .built (pi :: image)
      | r => r

/-- Outcome of Go `(*Game).add`: runtime panic, `(false, error)`,
`(false, nil)` with the receiver unchanged, or `(true, nil)` with the updated
receiver. -/
inductive AddResult where
  | panicked : AddResult
  | errored : String → AddResult
  | notPlaced : AddResult
  | placed : Game → AddResult
deriving DecidableEq

/-- Attempt to place a piece at an anchor, from Go `(*Game).add`: the budget
check comes first, then the image-building loop; on success the move is
appended, the count incremented and the image cells set. On `notPlaced` and
`errored` outcomes the Go receiver is left unmodified. -/
def Game.add (g : Game) (piece : Piece) (pos : Pos) : AddResult :=
  if g.count + (piece.pos.length : Int) > ((DimX * DimY : Nat) : Int) then
    .errored "board is already full"
  else
    match buildImage g.cells pos piece.pos 0 with
    | .panicked => .panicked
    | .rejected => .notPlaced
    | .built image =>
      .placed { moves := g.moves ++ [{ piece := piece, translate := pos }],
                cells := writeCells g.cells image true,
                count := g.count + (piece.pos.length : Int) }

/-- Outcome of Go `(*Game).pop`: runtime panic, error, or success with the
updated receiver. -/
inductive PopResult where
  | panicked : PopResult
  | errored : String → PopResult
  | popped : Game → PopResult
deriving DecidableEq

/-- Clearing loop of Go `(*Game).pop`: sets every image cell of the popped
move to `false`. The unchecked Go array write `g.cells[pi[0]][pi[1]] = false`
panics for an out-of-range index, modelled by `none`. -/
def clearCells : Grid → List Pos → Option Grid
  | cs, [] => some cs
  | cs, pi :: rest =>
    if pi.1 < 0 ∨ pi.1 ≥ (DimX : Int) ∨ pi.2 < 0 ∨ pi.2 ≥ (DimY : Int) then none
    else clearCells (setCell cs pi false) rest

/-- Undo the most recent move, from Go `(*Game).pop`: errors on an empty
history, otherwise decrements the count by the piece size, clears the image
cells and drops the last move. -/
def Game.pop (g : Game) : PopResult :=
  match g.moves.getLast? with
  | none => .errored "failed to pop from empty game"
  | some m =>
    match clearCells g.cells (Move.image m) with
    | none => .panicked
    | some cs =>
      .popped { moves := g.moves.dropLast,
                cells := cs,
                count := g.count - (m.piece.pos.length : Int) }

instance {ε α : Type} [DecidableEq ε] [DecidableEq α] : DecidableEq (Except ε α) :=
  fun a b =>
    match a, b with
    | .error e1, .error e2 => decidable_of_iff (e1 = e2) (by simp)
    | .ok x, .ok y => decidable_of_iff (x = y) (by simp)
    | .error _, .ok _ => isFalse (fun h => by cases h)
    | .ok _, .error _ => isFalse (fun h => by cases h)

/-- Number of `true` cells of an occupancy grid. -/
def countTrue (cs : Grid) : Nat :=
  (Finset.univ.filter (fun q : Fin DimX × Fin DimY => cs q.1 q.2 = true)).card

/-- Split a character list at every comma; embeds Go
`strings.Split(b, ",")` for the single-character separator used by
`parseBoard`. -/
def splitOnComma (l : List Char) : List (List Char) :=
  match l with
  | [] => [[]]
  | c :: rest =>
    let r := splitOnComma rest
    if c = ',' then [] :: r
    else
      match r with
      | [] => [[c]]
      | hd :: tl => (c :: hd) :: tl

/-- Inner loop of Go `parseBoard` over the characters of row `x`: an `'x'`
marks the cell occupied and increments the count. Go iterates byte offsets of
the row; for the one-byte alphabet accepted by the engine these coincide with
the character indices used here. -/
def parseRowCells : List Char → Nat → Nat → Grid × Int → Grid × Int
  | [], _, _, acc => acc
  | c :: restc, x, y, (cs, cnt) =>
    if c = 'x' then
      parseRowCells restc x (y + 1) (setCell cs ((x : Int), (y : Int)) true, cnt + 1)
    else
      parseRowCells restc x (y + 1) (cs, cnt)

/-- Outer loop of Go `parseBoard` over the rows: each row's length is checked
against `DimY` before its characters are consumed. The Go error text carries
the offending row; the message is abbreviated here. -/
def parseRows : List (List Char) → Nat → Grid × Int → Except String (Grid × Int)
  | [], _, acc => .ok acc
  | row :: rest, x, acc =>
    if row.length ≠ DimY then .error "row has an invalid number of items"
    else parseRows rest (x + 1) (parseRowCells row x 0 acc)

/-- Parse the textual board into a fresh session, from Go `parseBoard`: split
on commas, check the row count, then mark every `'x'` cell starting from the
zero value of `Game` (all cells false, count 0, no moves). -/
def parseBoard (b : String) : Except String Game :=
  let rows := splitOnComma b.toList
  if rows.length ≠ DimX then .error "board has an invalid number of rows"
  else
    match parseRows rows 0 (fun _ _ => false, 0) with
    | .error e => .error e
    | .ok (cs, cnt) => .ok { moves := [], cells := cs, count := cnt }

/-- Piece orientation obtainable from the static catalog: some catalog piece
has it among its precomputed versions. -/
def CatalogOrientation (pc : Piece) : Prop :=
  ∃ p ∈ pieces, pc ∈ p.allVersions

instance (pc : Piece) : Decidable (CatalogOrientation pc) := by
  unfold CatalogOrientation
  infer_instance

/-- Session states reachable from a starting session `g0` by any sequence of
successful `add` operations with catalog orientations and successful `pop`
operations. -/
inductive Reachable (g0 : Game) : Game → Prop where
  | start : Reachable g0 g0
  | add (g g' : Game) (pc : Piece) (pos : Pos) :
      Reachable g0 g → CatalogOrientation pc → Game.add g pc pos = .placed g' →
      Reachable g0 g'
  | pop (g g' : Game) :
      Reachable g0 g → Game.pop g = .popped g' → Reachable g0 g'

/-- Outcome of Go `(*Game).solve`: runtime panic, returned error, or normal
return carrying the final receiver state and the solutions sent on the result
channel, in send order. -/
inductive SolveResult where
  | panicked : SolveResult
  | errored : String → SolveResult
  | finished : Game → List (List Move) → SolveResult
deriving DecidableEq

/-- Iteration domain of the triple loop of Go `(*Game).solve` and
`(Game).solveP`: all `(x, y, piece)` combinations, x-major, then y, then the
versions of the last pool entry in order. -/
def solveTriples (lastPiece : List Piece) : List (Nat × Nat × Piece) :=
  (List.range DimX).flatMap fun x =>
    (List.range DimY).flatMap fun y =>
      lastPiece.map fun pc => (x, y, pc)

/-- Loop body of Go `(*Game).solve` for one pool level: attempt each
placement; on success run the recursion (`recur`), then pop; errors abort the
whole loop, solutions sent by deeper levels accumulate in order. -/
def solveLoop (recur : Game → SolveResult) :
    Game → List (Nat × Nat × Piece) → SolveResult
  | g, [] => .finished g []
  | g, (x, y, pc) :: rest =>
    match Game.add g pc ((x : Int), (y : Int)) with
    | .panicked => .panicked
    | .errored msg => .errored msg
    | .notPlaced => solveLoop recur g rest
    | .placed g1 =>
      match recur g1 with
      | .panicked => .panicked
      | .errored msg => .errored msg
      | .finished g2 sent =>
        match Game.pop g2 with
        | .panicked => .panicked
        | .errored msg => .errored msg
        | .popped g3 =>
          match solveLoop recur g3 rest with
          | .finished g4 sent' => .finished g4 (sent ++ sent')
          | r => r

/-- Sequential search, from Go `(*Game).solve`: with an empty pool the state
is terminal — an error if the board is not full, otherwise a copy of the move
history is sent on the channel; with a nonempty pool the last pool entry is
fanned over all positions and versions, recursing on the shortened pool. -/
def Game.solve (g : Game) (ps : List (List Piece)) : SolveResult :=
  match ps with
  | [] =>
    if g.count ≠ ((DimX * DimY : Nat) : Int) then
      .errored "no pieces left, but board is not full"
    else .finished g [g.moves]
  | p0 :: prest =>
    solveLoop (fun g1 => Game.solve g1 ((p0 :: prest).dropLast)) g
      (solveTriples ((p0 :: prest).getLastD []))
termination_by ps.length
decreasing_by simp

/-- Eventual observable behaviour of the result channel returned by
`solveP`: either some goroutine panicked (killing the process), or the
channel delivered the given solutions and was closed. Solutions are
linearized in goroutine spawn order; the nondeterministic interleaving of the
concurrent branches is abstracted. -/
inductive StreamResult where
  | panicked : StreamResult
  | closed : List (List Move) → StreamResult
deriving DecidableEq

/-- Per-branch work of Go `(Game).solveP`: each `(x, y, piece)` combination
gets a private clone of the board cells and count (but not the history), adds
the piece there, and on success runs the sequential search on the shortened
pool. An `add` error or a `solve` error triggers `panic(err)` in the
goroutine. -/
def solvePBranches (g : Game) (ps : List (List Piece)) :
    List (Nat × Nat × Piece) → StreamResult
  | [] => .closed []
  | (x, y, pc) :: rest =>
    let g2 : Game := { moves := [], cells := g.cells, count := g.count }
    match Game.add g2 pc ((x : Int), (y : Int)) with
    | .panicked => .panicked
    | .errored _ => .panicked
    | .notPlaced => solvePBranches g ps rest
    | .placed g3 =>
      match Game.solve g3 ps.dropLast with
      | .finished _ sent =>
        match solvePBranches g ps rest with
        | .closed more => .closed (sent ++ more)
        | r => r
      | _ => .panicked

/-- Parallel multi-solution entry point, from Go `(Game).solveP`: an empty
pool returns the Go `nil` channel (`none`) immediately; otherwise one
goroutine is spawned per `(x, y, piece)` combination of the last pool entry
and the channel is closed once all branches finish. -/
def Game.solveP (g : Game) (ps : List (List Piece)) : Option StreamResult :=
  if ps.length = 0 then none
  else some (solvePBranches g ps (solveTriples (ps.getLastD [])))

/-- Position within the board rectangle `[0,DimX) × [0,DimY)`; the condition
checked (in negated form) by `add` before any array access. -/
def inBounds (p : Pos) : Prop :=
  0 ≤ p.1 ∧ p.1 < (DimX : Int) ∧ 0 ≤ p.2 ∧ p.2 < (DimY : Int)

instance (p : Pos) : Decidable (inBounds p) := by
  unfold inBounds
  infer_instance

/-- Absolute cells covered by a list of moves, in order. -/
def movesCells (ms : List Move) : List Pos :=
  ms.flatMap Move.image

/-- Session invariant relating a state `g` to the starting state `g0` it was
reached from: the count bookkeeping, the geometry of the stacked moves, and
agreement between the count and the occupancy grid. -/
def SessionInv (g0 g : Game) : Prop :=
  g.count = g0.count + ((g.moves.map (fun m => (Move.image m).length)).sum : Int) ∧
  (∀ p ∈ movesCells g.moves, inBounds p) ∧
  (movesCells g.moves).Nodup ∧
  (∀ p ∈ movesCells g.moves, getCell g0.cells p = false) ∧
  (∀ p, inBounds p →
    (getCell g.cells p = true ↔ (getCell g0.cells p = true ∨ p ∈ movesCells g.moves))) ∧
  g.count = (countTrue g.cells : Int)

theorem range_tx_length : List.range tx.length = [0, 1, 2, 3, 4, 5, 6, 7] := by decide

theorem allVersionsLoop_step_lt4 (p : Piece) (t : Nat) (ht : t < 4) (ts : List Nat)
    (res : List Piece) :
    allVersionsLoop p (t :: ts) res =
      allVersionsLoop p ts (res ++ [p.transform (tx.getD t Identity)]) := by
  have hn : ¬(p.sym ∧ 4 ≤ t) := fun hc => absurd hc.2 (by omega)
  conv_lhs => rw [allVersionsLoop]
  rw [if_neg hn]

theorem allVersionsLoop_step_sym_ge4 (p : Piece) (h : p.sym = true) (t : Nat) (ht : 4 ≤ t)
    (ts : List Nat) (res : List Piece) :
    allVersionsLoop p (t :: ts) res = res := by
  unfold allVersionsLoop
  rw [if_pos ⟨by simp [h], ht⟩]

theorem allVersionsLoop_step_notsym (p : Piece) (h : p.sym = false) (t : Nat) (ts : List Nat)
    (res : List Piece) :
    allVersionsLoop p (t :: ts) res =
      allVersionsLoop p ts (res ++ [p.transform (tx.getD t Identity)]) := by
  have hn : ¬(p.sym ∧ 4 ≤ t) := fun hc => by simp [h] at hc
  conv_lhs => rw [allVersionsLoop]
  rw [if_neg hn]

theorem allVersions_of_sym (p : Piece) (h : p.sym = true) :
    p.allVersions = (tx.take 4).map p.transform := by
  unfold Piece.allVersions
  rw [range_tx_length]
  rw [allVersionsLoop_step_lt4 p 0 (by omega), allVersionsLoop_step_lt4 p 1 (by omega),
    allVersionsLoop_step_lt4 p 2 (by omega), allVersionsLoop_step_lt4 p 3 (by omega),
    allVersionsLoop_step_sym_ge4 p h 4 (by omega)]
  simp [tx]

theorem allVersions_of_notsym (p : Piece) (h : p.sym = false) :
    p.allVersions = tx.map p.transform := by
  unfold Piece.allVersions
  rw [range_tx_length]
  rw [allVersionsLoop_step_notsym p h 0, allVersionsLoop_step_notsym p h 1,
    allVersionsLoop_step_notsym p h 2, allVersionsLoop_step_notsym p h 3,
    allVersionsLoop_step_notsym p h 4, allVersionsLoop_step_notsym p h 5,
    allVersionsLoop_step_notsym p h 6, allVersionsLoop_step_notsym p h 7]
  unfold allVersionsLoop
  simp [tx]

/-- Claim C3 (amended): for a symmetric piece, `allVersions` applies exactly
the first 4 transforms of `tx`; those first 4 are the identity, the mirror,
the quarter-turn and the mirrored quarter-turn — not the four rotations. -/
theorem allVersions_sym_applies_first_four (p : Piece) (h : p.sym = true) :
    p.allVersions = (tx.take 4).map p.transform ∧
      tx.take 4 = [Identity, Mirror, Rot90, Matrix.Mult Rot90 Mirror] :=
  ⟨allVersions_of_sym p h, by decide⟩

/-- Witness for the amended claim C3 at the catalog piece `green`, whose
symmetry flag is set. -/
theorem allVersions_sym_applies_first_four_witness :
    (pieces.getD 1 ⟨"", [], false⟩).sym = true ∧
      ((pieces.getD 1 ⟨"", [], false⟩).allVersions =
          (tx.take 4).map (pieces.getD 1 ⟨"", [], false⟩).transform ∧
        tx.take 4 = [Identity, Mirror, Rot90, Matrix.Mult Rot90 Mirror]) :=
  ⟨by decide, allVersions_sym_applies_first_four _ (by decide)⟩

/-- Counterexample to claim C3 as stated: the second transform of the fixed
sequence is the mirror, which is none of the identity and the three
quarter-turn rotations, so the first 4 transforms are not the rotations. -/
theorem tx_second_entry_not_a_rotation :
    tx.getD 1 Identity = Mirror ∧
      Mirror ∉ [Identity, Rot90, Matrix.Mult Rot90 Rot90,
        Matrix.Mult (Matrix.Mult Rot90 Rot90) Rot90] := by decide

/-- Claim C4: `allVersions` yields exactly 8 orientations (one per transform,
unfiltered) for a piece with symmetry flag false, and exactly 4 orientations
for a piece with symmetry flag true. -/
theorem allVersions_length (p : Piece) :
    (p.sym = false → p.allVersions = tx.map p.transform ∧ p.allVersions.length = 8) ∧
      (p.sym = true → p.allVersions.length = 4) := by
  constructor
  · intro h
    have he := allVersions_of_notsym p h
    exact ⟨he, by rw [he]; simp [tx]⟩
  · intro h
    rw [allVersions_of_sym p h]
    simp [tx]

/-- Witness for claim C4 at the catalog pieces `blue` (asymmetric) and
`green` (symmetric). -/
theorem allVersions_length_witness :
    ((pieces.getD 0 ⟨"", [], false⟩).sym = false ∧
        (pieces.getD 0 ⟨"", [], false⟩).allVersions.length = 8) ∧
      ((pieces.getD 1 ⟨"", [], false⟩).sym = true ∧
        (pieces.getD 1 ⟨"", [], false⟩).allVersions.length = 4) :=
  ⟨⟨by decide, ((allVersions_length _).1 (by decide)).2⟩,
   ⟨by decide, (allVersions_length _).2 (by decide)⟩⟩

/-- Claim C8: the fixed transform table `tx` contains the identity matrix,
the identity matrix transforms every coordinate to itself, and `tx` is closed
under the matrix product `Mult`. -/
theorem tx_contains_identity_and_closed :
    Identity ∈ tx ∧ (∀ p : Pos, Matrix.Transform Identity p = p) ∧
      (∀ m1 ∈ tx, ∀ m2 ∈ tx, Matrix.Mult m1 m2 ∈ tx) := by
  refine ⟨by decide, ?_, by decide⟩
  intro p
  obtain ⟨a, b⟩ := p
  simp [Matrix.Transform, Identity]

/-- Witness for claim C8: closure applied at the concrete members `Rot90` and
`Mirror` of the table. -/
theorem tx_contains_identity_and_closed_witness :
    Rot90 ∈ tx ∧ Mirror ∈ tx ∧ Matrix.Mult Rot90 Mirror ∈ tx :=
  ⟨by decide, by decide,
    tx_contains_identity_and_closed.2.2 Rot90 (by decide) Mirror (by decide)⟩

/-- Claim C6: `add` returns an error exactly when the cell budget would be
exceeded; the budget check precedes the bounds and overlap checks (it fires
whatever the board content and image geometry are), and no other condition
produces an error return. -/
theorem add_errored_iff_budget (g : Game) (pc : Piece) (pos : Pos) :
    ((∃ msg, Game.add g pc pos = .errored msg) ↔
      g.count + (pc.pos.length : Int) > ((DimX * DimY : Nat) : Int)) ∧
      (g.count + (pc.pos.length : Int) > ((DimX * DimY : Nat) : Int) →
        Game.add g pc pos = .errored "board is already full") := by
  have herr : g.count + (pc.pos.length : Int) > ((DimX * DimY : Nat) : Int) →
      Game.add g pc pos = .errored "board is already full" := by
    intro hb
    unfold Game.add
    rw [if_pos hb]
  refine ⟨⟨?_, fun hb => ⟨_, herr hb⟩⟩, herr⟩
  intro ⟨msg, hmsg⟩
  by_contra hb
  unfold Game.add at hmsg
  rw [if_neg hb] at hmsg
  cases hbi : buildImage g.cells pos pc.pos 0 <;> rw [hbi] at hmsg <;> simp at hmsg

/-- Witness for claim C6: on a full board any placement attempt errors, here
with the catalog piece `turquoise`. -/
theorem add_errored_iff_budget_witness :
    (⟨[], fun _ _ => true, 55⟩ : Game).count +
        ((pieces.getD 9 ⟨"", [], false⟩).pos.length : Int) > ((DimX * DimY : Nat) : Int) ∧
      Game.add ⟨[], fun _ _ => true, 55⟩ (pieces.getD 9 ⟨"", [], false⟩) (0, 0) =
        .errored "board is already full" :=
  ⟨by decide, (add_errored_iff_budget _ _ _).2 (by decide)⟩

/-- Claim C7: with an empty pool the sequential search succeeds (sending the
move history, returning without error) exactly when the occupied count equals
the full board area, and otherwise reports the premature-exhaustion error. -/
theorem solve_empty_pool (g : Game) :
    ((∃ sent, Game.solve g [] = .finished g sent) ↔
      g.count = ((DimX * DimY : Nat) : Int)) ∧
      (g.count ≠ ((DimX * DimY : Nat) : Int) →
        Game.solve g [] = .errored "no pieces left, but board is not full") := by
  have hbase : Game.solve g [] =
      if g.count ≠ ((DimX * DimY : Nat) : Int) then
        .errored "no pieces left, but board is not full"
      else .finished g [g.moves] := by
    unfold Game.solve
    rfl
  by_cases h : g.count = ((DimX * DimY : Nat) : Int)
  · rw [hbase, if_neg (not_not_intro h)]
    constructor
    · constructor
      · intro _
        exact h
      · intro _
        exact ⟨[g.moves], rfl⟩
    · intro hc
      exact absurd h hc
  · rw [hbase, if_pos h]
    constructor
    · constructor
      · rintro ⟨sent, hs⟩
        cases hs
      · intro hc
        exact absurd hc h
    · intro _
      rfl

/-- Witness for claim C7 at two concrete sessions: a full board with count 55
succeeds, an empty board with count 0 errors. -/
theorem solve_empty_pool_witness :
    (∃ sent, Game.solve ⟨[], fun _ _ => true, 55⟩ [] = .finished ⟨[], fun _ _ => true, 55⟩ sent) ∧
      Game.solve ⟨[], fun _ _ => false, 0⟩ [] =
        .errored "no pieces left, but board is not full" :=
  ⟨(solve_empty_pool _).1.mpr (by decide), (solve_empty_pool _).2 (by decide)⟩

theorem getCell_eq (cs : Grid) (p : Pos) (hx : p.1.toNat < DimX) (hy : p.2.toNat < DimY) :
    getCell cs p = cs ⟨p.1.toNat, hx⟩ ⟨p.2.toNat, hy⟩ := by
  unfold getCell
  rw [dif_pos hx, dif_pos hy]

theorem setCell_apply_fin (cs : Grid) (p : Pos) (b : Bool) (hx : p.1.toNat < DimX)
    (hy : p.2.toNat < DimY) (i : Fin DimX) (j : Fin DimY) :
    setCell cs p b i j = if i.val = p.1.toNat ∧ j.val = p.2.toNat then b else cs i j := by
  unfold setCell
  rw [dif_pos hx, dif_pos hy]
  by_cases hi : i.val = p.1.toNat
  · have hieq : i = ⟨p.1.toNat, hx⟩ := Fin.ext hi
    rw [hieq, Function.update_same]
    by_cases hj : j.val = p.2.toNat
    · have hjeq : j = ⟨p.2.toNat, hy⟩ := Fin.ext hj
      rw [hjeq, Function.update_same, if_pos ⟨rfl, rfl⟩]
    · have hjne : j ≠ ⟨p.2.toNat, hy⟩ := fun hc => hj (by rw [hc])
      rw [Function.update_noteq hjne, if_neg (fun hc => hj hc.2)]
  · have hine : i ≠ ⟨p.1.toNat, hx⟩ := fun hc => hi (by rw [hc])
    rw [Function.update_noteq hine, if_neg (fun hc => hi hc.1)]

theorem getCell_setCell_self (cs : Grid) (p : Pos) (b : Bool) (hp : inBounds p) :
    getCell (setCell cs p b) p = b := by
  obtain ⟨h1, h2, h3, h4⟩ := hp
  have hx : p.1.toNat < DimX := by omega
  have hy : p.2.toNat < DimY := by omega
  rw [getCell_eq _ _ hx hy, setCell_apply_fin _ _ _ hx hy, if_pos ⟨rfl, rfl⟩]

theorem getCell_setCell_ne (cs : Grid) (p : Pos) (b : Bool) (q : Pos) (hp : inBounds p)
    (hq : inBounds q) (hne : q ≠ p) : getCell (setCell cs p b) q = getCell cs q := by
  obtain ⟨hp1, hp2, hp3, hp4⟩ := hp
  obtain ⟨hq1, hq2, hq3, hq4⟩ := hq
  have hpx : p.1.toNat < DimX := by omega
  have hpy : p.2.toNat < DimY := by omega
  have hqx : q.1.toNat < DimX := by omega
  have hqy : q.2.toNat < DimY := by omega
  rw [getCell_eq (setCell cs p b) q hqx hqy, setCell_apply_fin _ _ _ hpx hpy,
    ← getCell_eq cs q hqx hqy]
  rw [if_neg]
  intro hc
  apply hne
  have hfst : q.1 = p.1 := by
    have := hc.1
    simp only at this
    omega
  have hsnd : q.2 = p.2 := by
    have := hc.2
    simp only at this
    omega
  exact Prod.ext hfst hsnd

theorem grid_ext (cs1 cs2 : Grid)
    (h : ∀ p : Pos, inBounds p → getCell cs1 p = getCell cs2 p) : cs1 = cs2 := by
  funext i j
  have hib : inBounds ((i : Int), (j : Int)) := by
    refine ⟨by omega, ?_, by omega, ?_⟩
    · have := i.isLt
      omega
    · have := j.isLt
      omega
  have hx : ((i : Int)).toNat < DimX := by
    have := i.isLt
    omega
  have hy : ((j : Int)).toNat < DimY := by
    have := j.isLt
    omega
  have := h ((i : Int), (j : Int)) hib
  rw [getCell_eq _ _ hx hy, getCell_eq _ _ hx hy] at this
  simpa using this

theorem countTrue_setCell_true (cs : Grid) (p : Pos) (hp : inBounds p)
    (hfree : getCell cs p = false) : countTrue (setCell cs p true) = countTrue cs + 1 := by
  obtain ⟨h1, h2, h3, h4⟩ := hp
  have hx : p.1.toNat < DimX := by omega
  have hy : p.2.toNat < DimY := by omega
  unfold countTrue
  have hflt : Finset.filter (fun q : Fin DimX × Fin DimY => setCell cs p true q.1 q.2 = true)
        Finset.univ
      = insert (⟨p.1.toNat, hx⟩, ⟨p.2.toNat, hy⟩)
          (Finset.filter (fun q : Fin DimX × Fin DimY => cs q.1 q.2 = true) Finset.univ) := by
    ext ⟨i, j⟩
    simp only [Finset.mem_filter, Finset.mem_univ, true_and, Finset.mem_insert, Prod.mk.injEq]
    rw [setCell_apply_fin _ _ _ hx hy]
    by_cases hi : i.val = p.1.toNat <;> by_cases hj : j.val = p.2.toNat <;>
      simp [hi, hj, Fin.ext_iff]
  rw [hflt, Finset.card_insert_of_not_mem]
  simp only [Finset.mem_filter, Finset.mem_univ, true_and]
  rw [getCell_eq _ _ hx hy] at hfree
  simp [hfree]

theorem countTrue_setCell_false (cs : Grid) (p : Pos) (hp : inBounds p)
    (hocc : getCell cs p = true) : countTrue (setCell cs p false) + 1 = countTrue cs := by
  obtain ⟨h1, h2, h3, h4⟩ := hp
  have hx : p.1.toNat < DimX := by omega
  have hy : p.2.toNat < DimY := by omega
  unfold countTrue
  have hflt : Finset.filter (fun q : Fin DimX × Fin DimY => setCell cs p false q.1 q.2 = true)
        Finset.univ
      = (Finset.filter (fun q : Fin DimX × Fin DimY => cs q.1 q.2 = true) Finset.univ).erase
          (⟨p.1.toNat, hx⟩, ⟨p.2.toNat, hy⟩) := by
    ext ⟨i, j⟩
    simp only [Finset.mem_filter, Finset.mem_univ, true_and, Finset.mem_erase, Prod.mk.injEq]
    rw [setCell_apply_fin _ _ _ hx hy]
    by_cases hi : i.val = p.1.toNat <;> by_cases hj : j.val = p.2.toNat <;>
      simp [hi, hj, Fin.ext_iff]
  rw [hflt, Finset.card_erase_add_one]
  simp only [Finset.mem_filter, Finset.mem_univ, true_and]
  rw [getCell_eq _ _ hx hy] at hocc
  exact hocc

theorem writeCells_cons (cs : Grid) (p : Pos) (l : List Pos) (b : Bool) :
    writeCells cs (p :: l) b = writeCells (setCell cs p b) l b := rfl

theorem getCell_writeCells (cs : Grid) (l : List Pos) (b : Bool) (q : Pos)
    (hl : ∀ p ∈ l, inBounds p) (hq : inBounds q) :
    getCell (writeCells cs l b) q = if q ∈ l then b else getCell cs q := by
  induction l generalizing cs with
  | nil => simp [writeCells]
  | cons p l ih =>
    rw [writeCells_cons, ih (setCell cs p b) (fun r hr => hl r (List.mem_cons_of_mem p hr))]
    by_cases hql : q ∈ l
    · simp [hql, List.mem_cons]
    · by_cases hqp : q = p
      · subst hqp
        simp [hql, getCell_setCell_self cs q b hq]
      · have hm : q ∉ p :: l := by simp [hqp, hql]
        simp only [hql, if_false, hm, if_neg]
        exact getCell_setCell_ne cs p b q (hl p (List.mem_cons_self _ _)) hq hqp

theorem countTrue_writeCells_true (cs : Grid) (l : List Pos)
    (hl : ∀ p ∈ l, inBounds p) (hnd : l.Nodup) (hfree : ∀ p ∈ l, getCell cs p = false) :
    countTrue (writeCells cs l true) = countTrue cs + l.length := by
  induction l generalizing cs with
  | nil => simp [writeCells]
  | cons p l ih =>
    have hpb := hl p (List.mem_cons_self _ _)
    have hpl : p ∉ l := (List.nodup_cons.mp hnd).1
    rw [writeCells_cons]
    rw [ih (setCell cs p true) (fun r hr => hl r (List.mem_cons_of_mem p hr))
      (List.nodup_cons.mp hnd).2
      (fun r hr => by
        rw [getCell_setCell_ne cs p true r hpb (hl r (List.mem_cons_of_mem p hr))
          (fun hc => hpl (hc ▸ hr))]
        exact hfree r (List.mem_cons_of_mem p hr))]
    rw [countTrue_setCell_true cs p hpb (hfree p (List.mem_cons_self _ _))]
    simp
    omega

theorem countTrue_writeCells_false (cs : Grid) (l : List Pos)
    (hl : ∀ p ∈ l, inBounds p) (hnd : l.Nodup) (hocc : ∀ p ∈ l, getCell cs p = true) :
    countTrue (writeCells cs l false) + l.length = countTrue cs := by
  induction l generalizing cs with
  | nil => simp [writeCells]
  | cons p l ih =>
    have hpb := hl p (List.mem_cons_self _ _)
    have hpl : p ∉ l := (List.nodup_cons.mp hnd).1
    rw [writeCells_cons]
    have hrec := ih (setCell cs p false) (fun r hr => hl r (List.mem_cons_of_mem p hr))
      (List.nodup_cons.mp hnd).2
      (fun r hr => by
        rw [getCell_setCell_ne cs p false r hpb (hl r (List.mem_cons_of_mem p hr))
          (fun hc => hpl (hc ▸ hr))]
        exact hocc r (List.mem_cons_of_mem p hr))
    have hone := countTrue_setCell_false cs p hpb (hocc p (List.mem_cons_self _ _))
    simp only [List.length_cons]
    omega

theorem writeCells_false_writeCells_true (cs : Grid) (l : List Pos)
    (hl : ∀ p ∈ l, inBounds p) (hfree : ∀ p ∈ l, getCell cs p = false) :
    writeCells (writeCells cs l true) l false = cs := by
  apply grid_ext
  intro q hq
  rw [getCell_writeCells _ _ _ _ hl hq, getCell_writeCells _ _ _ _ hl hq]
  by_cases hql : q ∈ l
  · simp only [if_pos hql]
    exact (hfree q hql).symm
  · simp only [if_neg hql]

theorem clearCells_eq_some (cs : Grid) (l : List Pos) (hl : ∀ p ∈ l, inBounds p) :
    clearCells cs l = some (writeCells cs l false) := by
  induction l generalizing cs with
  | nil => simp [clearCells, writeCells]
  | cons p l ih =>
    have hpb := hl p (List.mem_cons_self _ _)
    obtain ⟨h1, h2, h3, h4⟩ := hpb
    rw [clearCells, if_neg (by omega), writeCells_cons]
    exact ih (setCell cs p false) (fun r hr => hl r (List.mem_cons_of_mem p hr))

theorem buildImage_no_panic (cs : Grid) (pos : Pos) (ps : List Pos) (i : Nat)
    (h : i + ps.length ≤ 5) : buildImage cs pos ps i ≠ .panicked := by
  induction ps generalizing i with
  | nil => simp [buildImage]
  | cons p rest ih =>
    simp only [List.length_cons] at h
    simp only [buildImage]
    split
    · simp
    · split
      · simp
      · split
        · omega
        · cases hb : buildImage cs pos rest (i + 1) with
          | panicked => exact absurd hb (ih (i + 1) (by omega))
          | rejected => simp
          | built image => simp

theorem buildImage_built_spec (cs : Grid) (pos : Pos) (ps : List Pos) (i : Nat)
    (img : List Pos) (h : buildImage cs pos ps i = .built img) :
    img = ps.map (fun p => Pos.translate p pos) ∧
      ∀ q ∈ img, inBounds q ∧ getCell cs q = false := by
  induction ps generalizing i img with
  | nil =>
    simp only [buildImage, ImageResult.built.injEq] at h
    subst h
    simp
  | cons p ps ih =>
    simp only [buildImage] at h
    by_cases hoob : (Pos.translate p pos).1 < 0 ∨ (Pos.translate p pos).1 ≥ (DimX : Int) ∨
        (Pos.translate p pos).2 < 0 ∨ (Pos.translate p pos).2 ≥ (DimY : Int)
    · rw [if_pos hoob] at h
      simp at h
    · rw [if_neg hoob] at h
      by_cases hocc : getCell cs (Pos.translate p pos) = true
      · rw [if_pos hocc] at h
        simp at h
      · rw [if_neg hocc] at h
        by_cases h5 : 5 ≤ i
        · rw [if_pos h5] at h
          simp at h
        · rw [if_neg h5] at h
          cases hb : buildImage cs pos ps (i + 1) with
          | panicked =>
            rw [hb] at h
            simp at h
          | rejected =>
            rw [hb] at h
            simp at h
          | built img' =>
            rw [hb] at h
            simp only [ImageResult.built.injEq] at h
            subst h
            obtain ⟨h1, h2⟩ := ih (i + 1) img' hb
            refine ⟨by simp [h1], ?_⟩
            intro q hq
            rcases List.mem_cons.mp hq with rfl | hq'
            · refine ⟨by unfold inBounds; omega, ?_⟩
              simp only [Bool.not_eq_true] at hocc
              exact hocc
            · exact h2 q hq'

theorem buildImage_rejected_of_bad (cs : Grid) (pos : Pos) (ps : List Pos) (i : Nat)
    (h5 : i + ps.length ≤ 5)
    (hbad : ∃ q ∈ ps.map (fun p => Pos.translate p pos),
      ¬inBounds q ∨ getCell cs q = true) :
    buildImage cs pos ps i = .rejected := by
  induction ps generalizing i with
  | nil => simp at hbad
  | cons p ps ih =>
    simp only [List.length_cons] at h5
    simp only [buildImage]
    by_cases hoob : (Pos.translate p pos).1 < 0 ∨ (Pos.translate p pos).1 ≥ (DimX : Int) ∨
        (Pos.translate p pos).2 < 0 ∨ (Pos.translate p pos).2 ≥ (DimY : Int)
    · rw [if_pos hoob]
    · rw [if_neg hoob]
      by_cases hocc : getCell cs (Pos.translate p pos) = true
      · rw [if_pos hocc]
      · rw [if_neg hocc, if_neg (by omega : ¬5 ≤ i)]
        have hbad' : ∃ q ∈ ps.map (fun p => Pos.translate p pos),
            ¬inBounds q ∨ getCell cs q = true := by
          obtain ⟨q, hq, hbq⟩ := hbad
          rcases List.mem_cons.mp hq with rfl | hq'
          · rcases hbq with hnb | hoc
            · refine absurd ?_ hnb
              show inBounds (Pos.translate p pos)
              unfold inBounds
              omega
            · exact absurd hoc hocc
          · exact ⟨q, hq', hbq⟩
        rw [ih (i + 1) (by omega) hbad']

theorem add_placed_spec (g : Game) (pc : Piece) (pos : Pos) (g' : Game)
    (h : Game.add g pc pos = .placed g') :
    g'.moves = g.moves ++ [{ piece := pc, translate := pos }] ∧
      g'.count = g.count + (pc.pos.length : Int) ∧
      g'.cells = writeCells g.cells (Move.image { piece := pc, translate := pos }) true ∧
      (∀ q ∈ Move.image { piece := pc, translate := pos },
        inBounds q ∧ getCell g.cells q = false) ∧
      ¬(g.count + (pc.pos.length : Int) > ((DimX * DimY : Nat) : Int)) := by
  unfold Game.add at h
  by_cases hb : g.count + (pc.pos.length : Int) > ((DimX * DimY : Nat) : Int)
  · rw [if_pos hb] at h
    simp at h
  · rw [if_neg hb] at h
    cases hbi : buildImage g.cells pos pc.pos 0 with
    | panicked =>
      rw [hbi] at h
      simp at h
    | rejected =>
      rw [hbi] at h
      simp at h
    | built image =>
      rw [hbi] at h
      simp only [AddResult.placed.injEq] at h
      obtain ⟨h1, h2⟩ := buildImage_built_spec _ _ _ _ _ hbi
      have himg : image = Move.image { piece := pc, translate := pos } := by
        rw [h1]
        rfl
      subst h
      refine ⟨rfl, rfl, by rw [← himg], fun q hq => h2 q (by rw [himg]; exact hq), hb⟩

theorem pop_spec (g : Game) (m : Move) (ms : List Move) (hm : g.moves = ms ++ [m])
    (hbounds : ∀ q ∈ Move.image m, inBounds q) :
    Game.pop g = .popped ⟨ms, writeCells g.cells (Move.image m) false,
      g.count - (m.piece.pos.length : Int)⟩ := by
  unfold Game.pop
  rw [hm]
  rw [show (ms ++ [m]).getLast? = some m from by simp]
  dsimp only
  rw [clearCells_eq_some _ _ hbounds]
  dsimp only
  rw [show (ms ++ [m]).dropLast = ms from by simp]

theorem allVersionsLoop_mem_pos_length (p : Piece) (ts : List Nat) (res : List Piece)
    (hres : ∀ q ∈ res, q.pos.length = p.pos.length) :
    ∀ q ∈ allVersionsLoop p ts res, q.pos.length = p.pos.length := by
  induction ts generalizing res with
  | nil =>
    simpa [allVersionsLoop] using hres
  | cons t ts ih =>
    intro q hq
    by_cases hc : p.sym ∧ 4 ≤ t
    · rw [allVersionsLoop, if_pos hc] at hq
      exact hres q hq
    · rw [allVersionsLoop, if_neg hc] at hq
      refine ih _ ?_ q hq
      intro q' hq'
      rcases List.mem_append.mp hq' with hl | hr
      · exact hres q' hl
      · simp only [List.mem_singleton] at hr
        subst hr
        simp [Piece.transform]

theorem allVersions_pos_length (p q : Piece) (hq : q ∈ p.allVersions) :
    q.pos.length = p.pos.length :=
  allVersionsLoop_mem_pos_length p _ [] (by simp) q hq

theorem pieces_pos_length_le : ∀ p ∈ pieces, p.pos.length ≤ 5 := by decide

theorem catalogOrientation_pos_length_le (pc : Piece) (h : CatalogOrientation pc) :
    pc.pos.length ≤ 5 := by
  obtain ⟨p, hp, hv⟩ := h
  rw [allVersions_pos_length p pc hv]
  exact pieces_pos_length_le p hp

theorem add_ne_panicked_of_le5 (g : Game) (pc : Piece) (pos : Pos)
    (h5 : pc.pos.length ≤ 5) : Game.add g pc pos ≠ .panicked := by
  unfold Game.add
  split
  · simp
  · cases hb : buildImage g.cells pos pc.pos 0 with
    | panicked => exact absurd hb (buildImage_no_panic _ _ _ 0 (by omega))
    | rejected => simp
    | built image => simp

/-- Claim C1: a successful `add` is exactly reversed by an immediate `pop`:
the resulting session has the original occupancy grid, occupied count and
move history, bit for bit. -/
theorem add_pop_roundtrip (g : Game) (pc : Piece) (pos : Pos) (g' : Game)
    (h : Game.add g pc pos = .placed g') :
    ∃ g'', Game.pop g' = .popped g'' ∧ g''.cells = g.cells ∧ g''.count = g.count ∧
      g''.moves = g.moves := by
  obtain ⟨hm, hc, hcells, himg, hbud⟩ := add_placed_spec g pc pos g' h
  have hbounds : ∀ q ∈ Move.image { piece := pc, translate := pos }, inBounds q :=
    fun q hq => (himg q hq).1
  have hfree : ∀ q ∈ Move.image { piece := pc, translate := pos }, getCell g.cells q = false :=
    fun q hq => (himg q hq).2
  refine ⟨_, pop_spec g' { piece := pc, translate := pos } g.moves hm hbounds, ?_, ?_, rfl⟩
  · rw [hcells]
    exact writeCells_false_writeCells_true g.cells _ hbounds hfree
  · rw [hc]
    ring

/-- Witness for claim C1: placing `turquoise` at the origin of an empty board
succeeds and popping it restores the empty board. -/
theorem add_pop_roundtrip_witness :
    Game.add ⟨[], fun _ _ => false, 0⟩ (pieces.getD 9 ⟨"", [], false⟩) ((0 : Int), (0 : Int)) =
        .placed ⟨[⟨pieces.getD 9 ⟨"", [], false⟩, ((0 : Int), (0 : Int))⟩],
          writeCells (fun _ _ => false)
            (Move.image ⟨pieces.getD 9 ⟨"", [], false⟩, ((0 : Int), (0 : Int))⟩) true, 3⟩ ∧
      ∃ g'', Game.pop ⟨[⟨pieces.getD 9 ⟨"", [], false⟩, ((0 : Int), (0 : Int))⟩],
          writeCells (fun _ _ => false)
            (Move.image ⟨pieces.getD 9 ⟨"", [], false⟩, ((0 : Int), (0 : Int))⟩) true, 3⟩ =
          .popped g'' ∧
        g''.cells = (fun _ _ => false) ∧ g''.count = 0 ∧ g''.moves = [] :=
  ⟨by decide,
    add_pop_roundtrip ⟨[], fun _ _ => false, 0⟩ (pieces.getD 9 ⟨"", [], false⟩)
      ((0 : Int), (0 : Int))
      ⟨[⟨pieces.getD 9 ⟨"", [], false⟩, ((0 : Int), (0 : Int))⟩],
        writeCells (fun _ _ => false)
          (Move.image ⟨pieces.getD 9 ⟨"", [], false⟩, ((0 : Int), (0 : Int))⟩) true, 3⟩
      (by decide)⟩

/-- Claim C5 (amended): provided the budget check passes and the piece has at
most 5 offsets (both true of every catalog orientation attempted during
search), an image cell out of bounds or already occupied makes `add` return
not-placed: no error, and the receiver is left unchanged. -/
theorem add_notPlaced_of_bad_cell (g : Game) (pc : Piece) (pos : Pos)
    (h5 : pc.pos.length ≤ 5)
    (hbud : ¬(g.count + (pc.pos.length : Int) > ((DimX * DimY : Nat) : Int)))
    (hbad : ∃ q ∈ Move.image { piece := pc, translate := pos },
      ¬inBounds q ∨ getCell g.cells q = true) :
    Game.add g pc pos = .notPlaced := by
  have hbad' : ∃ q ∈ pc.pos.map (fun p => Pos.translate p pos),
      ¬inBounds q ∨ getCell g.cells q = true := hbad
  unfold Game.add
  rw [if_neg hbud]
  rw [buildImage_rejected_of_bad g.cells pos pc.pos 0 (by omega) hbad']

/-- Witness for the amended claim C5: `turquoise` anchored at `(0, 10)` on an
empty board has an out-of-bounds image cell and is silently rejected. -/
theorem add_notPlaced_of_bad_cell_witness :
    (pieces.getD 9 ⟨"", [], false⟩).pos.length ≤ 5 ∧
      ¬((⟨[], fun _ _ => false, 0⟩ : Game).count +
          ((pieces.getD 9 ⟨"", [], false⟩).pos.length : Int) > ((DimX * DimY : Nat) : Int)) ∧
      (∃ q ∈ Move.image ⟨pieces.getD 9 ⟨"", [], false⟩, ((0 : Int), (10 : Int))⟩,
        ¬inBounds q ∨ getCell (fun _ _ => false) q = true) ∧
      Game.add ⟨[], fun _ _ => false, 0⟩ (pieces.getD 9 ⟨"", [], false⟩)
        ((0 : Int), (10 : Int)) = .notPlaced :=
  ⟨by decide, by decide, by decide,
    add_notPlaced_of_bad_cell _ _ _ (by decide) (by decide) (by decide)⟩

/-- Counterexample to claim C5 as stated: first, on a board whose count is
already 55 an attempt whose image hits an occupied cell returns the budget
error, not the silent rejection (the budget check fires first); second, a
piece with 7 offsets whose image leaves the board can panic on the fixed
five-element buffer instead of being rejected. -/
theorem add_bad_cell_not_always_notPlaced :
    ((∃ q ∈ Move.image ⟨pieces.getD 9 ⟨"", [], false⟩, ((0 : Int), (0 : Int))⟩,
        ¬inBounds q ∨ getCell (fun _ _ => true) q = true) ∧
      Game.add ⟨[], fun _ _ => true, 55⟩ (pieces.getD 9 ⟨"", [], false⟩)
          ((0 : Int), (0 : Int)) ≠ .notPlaced) ∧
      ((∃ q ∈ Move.image ⟨⟨"seven",
            [((0 : Int), (0 : Int)), (0, 1), (0, 2), (0, 3), (0, 4), (0, 5), (0, 20)], false⟩,
          ((0 : Int), (0 : Int))⟩,
        ¬inBounds q ∨ getCell (fun _ _ => false) q = true) ∧
      Game.add ⟨[], fun _ _ => false, 0⟩
          ⟨"seven", [((0 : Int), (0 : Int)), (0, 1), (0, 2), (0, 3), (0, 4), (0, 5), (0, 20)],
            false⟩ ((0 : Int), (0 : Int)) = .panicked) := by
  constructor
  · exact ⟨by decide, by decide⟩
  · exact ⟨by decide, by decide⟩

/-- Claim C9: transforming a piece preserves its offset count, every
orientation derived from the static catalog has at most 5 offsets, and hence
`add` never writes past the fixed five-element image buffer (never panics)
for a catalog orientation. -/
theorem catalog_image_buffer_safe :
    (∀ p ∈ pieces, p.pos.length ≤ 5) ∧
      (∀ (p : Piece) (m : Matrix), (p.transform m).pos.length = p.pos.length) ∧
      (∀ pc : Piece, CatalogOrientation pc → pc.pos.length ≤ 5) ∧
      (∀ (g : Game) (pc : Piece) (pos : Pos), CatalogOrientation pc →
        Game.add g pc pos ≠ .panicked) := by
  refine ⟨pieces_pos_length_le, fun p m => by simp [Piece.transform],
    catalogOrientation_pos_length_le, ?_⟩
  intro g pc pos hc
  exact add_ne_panicked_of_le5 g pc pos (catalogOrientation_pos_length_le pc hc)

/-- Witness for claim C9 at the catalog orientation `turquoise` (obtained
from the identity transform) on an empty board. -/
theorem catalog_image_buffer_safe_witness :
    CatalogOrientation (pieces.getD 9 ⟨"", [], false⟩) ∧
      (pieces.getD 9 ⟨"", [], false⟩).pos.length ≤ 5 ∧
      Game.add ⟨[], fun _ _ => false, 0⟩ (pieces.getD 9 ⟨"", [], false⟩) (0, 0) ≠ .panicked :=
  ⟨by decide, catalog_image_buffer_safe.2.2.1 _ (by decide),
    catalog_image_buffer_safe.2.2.2 _ _ _ (by decide)⟩

theorem getCell_const_false (q : Pos) : getCell (fun _ _ => false) q = false := by
  unfold getCell
  split
  · split
    · rfl
    · rfl
  · rfl

theorem countTrue_const_false : countTrue (fun _ _ => false) = 0 := by decide

theorem parseRowCells_spec (row : List Char) (x : Nat) (y : Nat) (cs : Grid) (cnt : Int)
    (hx : x < DimX) (hylen : y + row.length ≤ DimY)
    (hcnt : cnt = (countTrue cs : Int))
    (hfree : ∀ y' : Nat, y ≤ y' → y' < DimY →
      getCell cs ((x : Int), (y' : Int)) = false) :
    (parseRowCells row x y (cs, cnt)).2 =
        (countTrue (parseRowCells row x y (cs, cnt)).1 : Int) ∧
      (∀ q : Pos, inBounds q → q.1 ≠ (x : Int) →
        getCell (parseRowCells row x y (cs, cnt)).1 q = getCell cs q) := by
  induction row generalizing y cs cnt with
  | nil =>
    exact ⟨hcnt, fun q _ _ => rfl⟩
  | cons c restc ih =>
    rw [parseRowCells]
    simp only [List.length_cons] at hylen
    have hxy : inBounds ((x : Int), (y : Int)) := by
      unfold inBounds
      refine ⟨by omega, by omega, by omega, by omega⟩
    by_cases hc : c = 'x'
    · rw [if_pos hc]
      have hfree0 : getCell cs ((x : Int), (y : Int)) = false :=
        hfree y (le_refl y) (by omega)
      have hcnt' : cnt + 1 = (countTrue (setCell cs ((x : Int), (y : Int)) true) : Int) := by
        rw [countTrue_setCell_true cs _ hxy hfree0]
        push_cast
        omega
      have hfree' : ∀ y' : Nat, y + 1 ≤ y' → y' < DimY →
          getCell (setCell cs ((x : Int), (y : Int)) true) ((x : Int), (y' : Int)) = false := by
        intro y' hy1 hy2
        have hyb : inBounds ((x : Int), (y' : Int)) := by
          unfold inBounds
          refine ⟨by omega, by omega, by omega, by omega⟩
        rw [getCell_setCell_ne cs _ true _ hxy hyb
          (by intro hcon; simp only [Prod.mk.injEq] at hcon; omega)]
        exact hfree y' (by omega) hy2
      obtain ⟨j1, j2⟩ := ih (y + 1) (setCell cs ((x : Int), (y : Int)) true) (cnt + 1)
        (by omega) hcnt' hfree'
      refine ⟨j1, ?_⟩
      intro q hq hqx
      rw [j2 q hq hqx]
      exact getCell_setCell_ne cs _ true q hxy hq
        (by intro hcon; rw [hcon] at hqx; simp at hqx)
    · rw [if_neg hc]
      exact ih (y + 1) cs cnt (by omega) hcnt
        (fun y' hy1 hy2 => hfree y' (by omega) hy2)

theorem parseRows_spec (rows : List (List Char)) (x : Nat) (cs : Grid) (cnt : Int)
    (hx : x + rows.length ≤ DimX)
    (hcnt : cnt = (countTrue cs : Int))
    (hfree : ∀ q : Pos, inBounds q → (x : Int) ≤ q.1 → getCell cs q = false)
    (cs' : Grid) (cnt' : Int)
    (h : parseRows rows x (cs, cnt) = .ok (cs', cnt')) :
    cnt' = (countTrue cs' : Int) := by
  induction rows generalizing x cs cnt with
  | nil =>
    simp only [parseRows, Except.ok.injEq, Prod.mk.injEq] at h
    obtain ⟨h1, h2⟩ := h
    rw [← h1, ← h2]
    exact hcnt
  | cons row rest ih =>
    rw [parseRows] at h
    simp only [List.length_cons] at hx
    by_cases hlen : row.length ≠ DimY
    · rw [if_pos hlen] at h
      cases h
    · rw [if_neg hlen] at h
      push_neg at hlen
      have hfrow : ∀ y' : Nat, 0 ≤ y' → y' < DimY →
          getCell cs ((x : Int), (y' : Int)) = false := by
        intro y' _ hy2
        refine hfree ((x : Int), (y' : Int)) ?_ (le_refl _)
        unfold inBounds
        refine ⟨by omega, by omega, by omega, by omega⟩
      obtain ⟨j1, j2⟩ := parseRowCells_spec row x 0 cs cnt (by omega) (by omega) hcnt hfrow
      refine ih (x + 1) (parseRowCells row x 0 (cs, cnt)).1
        (parseRowCells row x 0 (cs, cnt)).2 (by omega) j1 ?_ ?_
      · intro q hq hx1
        rw [j2 q hq (by omega)]
        exact hfree q hq (by omega)
      · rw [← h]

theorem parseBoard_ok_spec (b : String) (g : Game) (h : parseBoard b = .ok g) :
    g.moves = [] ∧ g.count = (countTrue g.cells : Int) := by
  unfold parseBoard at h
  by_cases hlen : (splitOnComma b.toList).length ≠ DimX
  · rw [if_pos hlen] at h
    cases h
  · rw [if_neg hlen] at h
    push_neg at hlen
    cases hp : parseRows (splitOnComma b.toList) 0 (fun _ _ => false, 0) with
    | error e =>
      rw [hp] at h
      cases h
    | ok pr =>
      obtain ⟨cs, cnt⟩ := pr
      rw [hp] at h
      simp only [Except.ok.injEq] at h
      rw [← h]
      refine ⟨rfl, ?_⟩
      exact parseRows_spec (splitOnComma b.toList) 0 (fun _ _ => false) 0 (by omega)
        (by rw [countTrue_const_false]; rfl)
        (fun q _ _ => getCell_const_false q) cs cnt hp

theorem catalog_versions_nodup : ∀ p ∈ pieces, ∀ v ∈ p.allVersions, v.pos.Nodup := by decide

theorem catalogOrientation_pos_nodup (pc : Piece) (h : CatalogOrientation pc) :
    pc.pos.Nodup := by
  obtain ⟨p, hp, hv⟩ := h
  exact catalog_versions_nodup p hp pc hv

theorem move_image_nodup (pc : Piece) (pos : Pos) (hnd : pc.pos.Nodup) :
    (Move.image ⟨pc, pos⟩).Nodup := by
  unfold Move.image
  refine List.Nodup.map ?_ hnd
  intro a b hab
  simp only [Pos.translate, Prod.mk.injEq] at hab
  obtain ⟨h1, h2⟩ := hab
  refine Prod.ext ?_ ?_ <;> omega

theorem movesCells_append (ms : List Move) (m : Move) :
    movesCells (ms ++ [m]) = movesCells ms ++ Move.image m := by
  simp [movesCells]

theorem sessionInv_start (b : String) (g0 : Game) (h : parseBoard b = .ok g0) :
    SessionInv g0 g0 := by
  obtain ⟨hm, hc⟩ := parseBoard_ok_spec b g0 h
  unfold SessionInv
  rw [hm]
  refine ⟨by simp, ?_, by simp [movesCells], ?_, ?_, hc⟩
  · intro q hq
    simp [movesCells] at hq
  · intro q hq
    simp [movesCells] at hq
  · intro q _
    simp [movesCells]

theorem sessionInv_add (g0 g g' : Game) (pc : Piece) (pos : Pos)
    (hinv : SessionInv g0 g) (hcat : CatalogOrientation pc)
    (h : Game.add g pc pos = .placed g') : SessionInv g0 g' := by
  obtain ⟨hm, hc, hcells, himg, hbud⟩ := add_placed_spec g pc pos g' h
  unfold SessionInv at hinv ⊢
  obtain ⟨i1, i2, i3, i4, i5, i6⟩ := hinv
  have himgb : ∀ q ∈ Move.image ⟨pc, pos⟩, inBounds q := fun q hq => (himg q hq).1
  have himgf : ∀ q ∈ Move.image ⟨pc, pos⟩, getCell g.cells q = false :=
    fun q hq => (himg q hq).2
  have himgnd : (Move.image ⟨pc, pos⟩).Nodup :=
    move_image_nodup pc pos (catalogOrientation_pos_nodup pc hcat)
  have hmc : movesCells g'.moves = movesCells g.moves ++ Move.image ⟨pc, pos⟩ := by
    rw [hm]
    exact movesCells_append _ _
  have hdisj : ∀ q ∈ Move.image ⟨pc, pos⟩, q ∉ movesCells g.moves := by
    intro q hq hq'
    have htrue : getCell g.cells q = true := (i5 q (himgb q hq)).mpr (Or.inr hq')
    rw [himgf q hq] at htrue
    cases htrue
  have himlen : (Move.image ⟨pc, pos⟩).length = pc.pos.length := by simp [Move.image]
  refine ⟨?_, ?_, ?_, ?_, ?_, ?_⟩
  · rw [hc, hm, i1, List.map_append, List.sum_append]
    push_cast
    simp only [List.map_cons, List.map_nil, List.sum_cons, List.sum_nil]
    rw [himlen]
    ring
  · intro q hq
    rw [hmc] at hq
    rcases List.mem_append.mp hq with hql | hqr
    · exact i2 q hql
    · exact himgb q hqr
  · rw [hmc, List.nodup_append]
    exact ⟨i3, himgnd, fun q hql hqr => hdisj q hqr hql⟩
  · intro q hq
    rw [hmc] at hq
    rcases List.mem_append.mp hq with hql | hqr
    · exact i4 q hql
    · cases hget : getCell g0.cells q with
      | false => rfl
      | true =>
        have hcell := (i5 q (himgb q hqr)).mpr (Or.inl hget)
        rw [himgf q hqr] at hcell
        cases hcell
  · intro q hq
    rw [hcells, hmc, getCell_writeCells g.cells (Move.image ⟨pc, pos⟩) true q himgb hq]
    by_cases hqm : q ∈ Move.image ⟨pc, pos⟩
    · simp only [if_pos hqm, List.mem_append, hqm, or_true]
      simp
    · rw [if_neg hqm, i5 q hq]
      simp only [List.mem_append, hqm, or_false]
  · rw [hc, hcells, countTrue_writeCells_true g.cells _ himgb himgnd himgf, himlen, i6]
    push_cast
    ring

theorem sessionInv_pop (g0 g g' : Game) (hinv : SessionInv g0 g)
    (h : Game.pop g = .popped g') : SessionInv g0 g' := by
  unfold SessionInv at hinv ⊢
  obtain ⟨i1, i2, i3, i4, i5, i6⟩ := hinv
  cases hml : g.moves.getLast? with
  | none =>
    unfold Game.pop at h
    rw [hml] at h
    cases h
  | some m =>
    have hne : g.moves ≠ [] := by
      intro hcon
      rw [hcon] at hml
      cases hml
    have hdecomp : g.moves = g.moves.dropLast ++ [m] := by
      have hgl := List.dropLast_append_getLast hne
      rw [List.getLast?_eq_getLast _ hne] at hml
      injection hml with hml'
      rw [hml'] at hgl
      exact hgl.symm
    have hmmem : m ∈ g.moves := by
      rw [hdecomp]
      exact List.mem_append.mpr (Or.inr (by simp))
    have himb : ∀ q ∈ Move.image m, inBounds q := by
      intro q hq
      refine i2 q ?_
      unfold movesCells
      exact List.mem_flatMap.mpr ⟨m, hmmem, hq⟩
    rw [pop_spec g m g.moves.dropLast hdecomp himb] at h
    simp only [PopResult.popped.injEq] at h
    have hmc : movesCells g.moves = movesCells g.moves.dropLast ++ Move.image m := by
      conv_lhs => rw [hdecomp]
      exact movesCells_append _ _
    have hnd := i3
    rw [hmc] at hnd
    obtain ⟨hnd1, hnd2, hnd3⟩ := List.nodup_append.mp hnd
    have himocc : ∀ q ∈ Move.image m, getCell g.cells q = true := by
      intro q hq
      refine (i5 q (himb q hq)).mpr (Or.inr ?_)
      rw [hmc]
      exact List.mem_append.mpr (Or.inr hq)
    have himlen : (Move.image m).length = m.piece.pos.length := by simp [Move.image]
    subst h
    refine ⟨?_, ?_, ?_, ?_, ?_, ?_⟩
    · have hs := i1
      rw [hdecomp, List.map_append, List.sum_append] at hs
      simp only [List.map_cons, List.map_nil, List.sum_cons, List.sum_nil] at hs
      simp only
      rw [himlen] at hs
      push_cast at hs ⊢
      omega
    · intro q hq
      refine i2 q ?_
      rw [hmc]
      exact List.mem_append.mpr (Or.inl hq)
    · exact hnd1
    · intro q hq
      refine i4 q ?_
      rw [hmc]
      exact List.mem_append.mpr (Or.inl hq)
    · intro q hq
      simp only
      rw [getCell_writeCells g.cells (Move.image m) false q himb hq]
      by_cases hqm : q ∈ Move.image m
      · rw [if_pos hqm]
        have hg0 : getCell g0.cells q = false := by
          refine i4 q ?_
          rw [hmc]
          exact List.mem_append.mpr (Or.inr hqm)
        have hnotl : q ∉ movesCells g.moves.dropLast := fun hcon => hnd3 hcon hqm
        simp [hg0, hnotl]
      · rw [if_neg hqm, i5 q hq, hmc]
        simp only [List.mem_append, hqm, or_false]
    · have hcnt := countTrue_writeCells_false g.cells (Move.image m) himb hnd2 himocc
      simp only
      rw [himlen] at hcnt
      omega

/-- Claim C2 (amended): in every session reachable from a parsed starting
board by successful `add` (with catalog orientations) and `pop` operations,
the occupied count equals the starting board's count plus the sum of the
image sizes of the stacked moves, and equals the number of true cells of the
occupancy grid. -/
theorem reachable_session_invariant (b : String) (g0 g : Game)
    (hparse : parseBoard b = .ok g0) (hr : Reachable g0 g) :
    g.count = g0.count + ((g.moves.map (fun m => (Move.image m).length)).sum : Int) ∧
      g.count = (countTrue g.cells : Int) := by
  have hinv : SessionInv g0 g := by
    induction hr with
    | start => exact sessionInv_start b g0 hparse
    | add g1 g1' pc pos hr1 hcat hadd ih => exact sessionInv_add g0 g1 g1' pc pos ih hcat hadd
    | pop g1 g1' hr1 hpop ih => exact sessionInv_pop g0 g1 g1' ih hpop
  unfold SessionInv at hinv
  exact ⟨hinv.1, hinv.2.2.2.2.2⟩

/-- Witness for the amended claim C2 at the parsed all-empty board with the
empty operation sequence. -/
theorem reachable_session_invariant_witness :
    parseBoard "00000000000,00000000000,00000000000,00000000000,00000000000" =
        .ok ⟨[], fun _ _ => false, 0⟩ ∧
      ((⟨[], fun _ _ => false, 0⟩ : Game).count =
          (⟨[], fun _ _ => false, 0⟩ : Game).count +
            (((⟨[], fun _ _ => false, 0⟩ : Game).moves.map
              (fun m => (Move.image m).length)).sum : Int) ∧
        (⟨[], fun _ _ => false, 0⟩ : Game).count =
          (countTrue (⟨[], fun _ _ => false, 0⟩ : Game).cells : Int)) :=
  ⟨by decide,
    reachable_session_invariant "00000000000,00000000000,00000000000,00000000000,00000000000"
      ⟨[], fun _ _ => false, 0⟩ ⟨[], fun _ _ => false, 0⟩ (by decide) Reachable.start⟩

/-- Counterexample to claim C2 as stated: a parsed starting board with one
pre-occupied cell is reachable (empty operation sequence) yet its occupied
count is 1 while the move stack is empty, so the count does not equal the sum
of the image sizes of the stacked moves. -/
theorem reachable_count_not_sum_of_images :
    parseBoard "x0000000000,00000000000,00000000000,00000000000,00000000000" =
        .ok ⟨[], setCell (fun _ _ => false) ((0 : Int), (0 : Int)) true, 1⟩ ∧
      Reachable ⟨[], setCell (fun _ _ => false) ((0 : Int), (0 : Int)) true, 1⟩
        ⟨[], setCell (fun _ _ => false) ((0 : Int), (0 : Int)) true, 1⟩ ∧
      ¬((⟨[], setCell (fun _ _ => false) ((0 : Int), (0 : Int)) true, 1⟩ : Game).count =
        (((⟨[], setCell (fun _ _ => false) ((0 : Int), (0 : Int)) true, 1⟩ : Game).moves.map
          (fun m => (Move.image m).length)).sum : Int)) :=
  ⟨rfl, Reachable.start, by decide⟩

/-- Claim C10: the multi-solution entry point called with an empty pool
returns the Go `nil` channel (`none`): no allocated stream, no close signal. -/
theorem solveP_empty_pool (g : Game) : Game.solveP g [] = none := by
  unfold Game.solveP
  rfl

end IqPuzzler
